import Mathlib

/-!
Shallow embedding of the newlogme activity-logger engine: the DuckDB query
layer (`ulogme-db`: `getOverview`, `getAppUsageForDate`, `getDayData`,
`addNote`, `saveBlog`), the HTTP write boundary in `server.ts`
(`POST /api/ulogme/note`, `PUT /api/ulogme/blog/:logicalDate`), and the
client-side duration derivation of `CategoryStats.tsx`.

Modelling conventions:
- instants (event timestamps) are naturals counting epoch seconds;
- logical dates are naturals (ISO date strings are order-isomorphic to ℕ,
  and the SQL `DATE` order is the usual one);
- the SQL tables are Lean lists of row structures inside a `Store`;
- `ORDER BY` and JS `Array.sort` are modelled by a stable insertion sort
  on a key, `sortAscBy` / `sortDescBy` below;
- JSON request fields that may be absent are `Option` values.
-/

namespace Newlogme

/-- Stable ascending insertion by key: `a` is placed before the first
element whose key is `≥ key a`, so earlier elements win ties. -/
def insertAscBy {α β : Type} [LinearOrder β] (key : α → β) (a : α) : List α → List α
  | [] => [a]
  | b :: l => if key a ≤ key b then a :: b :: l else b :: insertAscBy key a l

/-- Stable ascending sort by key (models SQL `ORDER BY key ASC`). -/
def sortAscBy {α β : Type} [LinearOrder β] (key : α → β) : List α → List α
  | [] => []
  | a :: l => insertAscBy key a (sortAscBy key l)

/-- Stable descending insertion by key: `a` is placed before the first
element whose key is `≤ key a`, so earlier elements win ties. -/
def insertDescBy {α β : Type} [LinearOrder β] (key : α → β) (a : α) : List α → List α
  | [] => [a]
  | b :: l => if key b ≤ key a then a :: b :: l else b :: insertDescBy key a l

/-- Stable descending sort by key (models SQL `ORDER BY key DESC` and
JS `array.sort((a, b) => key(b) - key(a))`, which is stable). -/
def sortDescBy {α β : Type} [LinearOrder β] (key : α → β) : List α → List α
  | [] => []
  | a :: l => insertDescBy key a (sortDescBy key l)

theorem mem_insertAscBy {α β : Type} [LinearOrder β] (key : α → β) (a x : α) :
    ∀ l : List α, x ∈ insertAscBy key a l ↔ x = a ∨ x ∈ l := by
  intro l
  induction l with
  | nil => simp [insertAscBy]
  | cons b l ih =>
    by_cases h : key a ≤ key b
    · simp [insertAscBy, h]
    · simp only [insertAscBy, if_neg h, List.mem_cons, ih]
      tauto

theorem mem_sortAscBy {α β : Type} [LinearOrder β] (key : α → β) (x : α) :
    ∀ l : List α, x ∈ sortAscBy key l ↔ x ∈ l := by
  intro l
  induction l with
  | nil => simp [sortAscBy]
  | cons a l ih => simp [sortAscBy, mem_insertAscBy, ih]

theorem perm_insertDescBy {α β : Type} [LinearOrder β] (key : α → β) (a : α) :
    ∀ l : List α, (insertDescBy key a l).Perm (a :: l) := by
  intro l
  induction l with
  | nil => simp [insertDescBy]
  | cons b l ih =>
    by_cases h : key b ≤ key a
    · simp [insertDescBy, h]
    · simpa [insertDescBy, if_neg h] using ((ih.cons b).trans (List.Perm.swap a b l))

theorem perm_sortDescBy {α β : Type} [LinearOrder β] (key : α → β) :
    ∀ l : List α, (sortDescBy key l).Perm l := by
  intro l
  induction l with
  | nil => simp [sortDescBy]
  | cons a l ih =>
    exact (perm_insertDescBy key a (sortDescBy key l)).trans (ih.cons a)

theorem mem_sortDescBy {α β : Type} [LinearOrder β] (key : α → β) (x : α) (l : List α) :
    x ∈ sortDescBy key l ↔ x ∈ l :=
  (perm_sortDescBy key l).mem_iff

theorem pairwise_insertDescBy {α β : Type} [LinearOrder β] (key : α → β) (a : α)
    (l : List α) (h : l.Pairwise (fun x y => key y ≤ key x)) :
    (insertDescBy key a l).Pairwise (fun x y => key y ≤ key x) := by
  induction l with
  | nil => simp [insertDescBy]
  | cons b l ih =>
    rcases List.pairwise_cons.mp h with ⟨hb, hl⟩
    by_cases hba : key b ≤ key a
    · rw [insertDescBy, if_pos hba]
      refine List.pairwise_cons.mpr ⟨?_, h⟩
      intro x hx
      rcases List.mem_cons.mp hx with rfl | hx
      · exact hba
      · exact le_trans (hb x hx) hba
    · rw [insertDescBy, if_neg hba]
      refine List.pairwise_cons.mpr ⟨?_, ih hl⟩
      intro x hx
      rcases List.mem_cons.mp ((perm_insertDescBy key a l).mem_iff.mp hx) with rfl | h2
      · exact le_of_lt (lt_of_not_le hba)
      · exact hb x h2

theorem pairwise_sortDescBy {α β : Type} [LinearOrder β] (key : α → β) :
    ∀ l : List α, (sortDescBy key l).Pairwise (fun x y => key y ≤ key x) := by
  intro l
  induction l with
  | nil => simp [sortDescBy]
  | cons a l ih => exact pairwise_insertDescBy key a _ ih

/-- A row of the `window_events` table: one focus-change sample, pre-tagged
with its logical date by the capture side (columns of `ulogme-db`). -/
structure WRow where
  timestamp : Nat
  app_name : String
  window_title : Option String
  browser_url : Option String
  logical_date : Nat
deriving DecidableEq

/-- A row of the `key_events` table: one keystroke-count sample. -/
structure KRow where
  timestamp : Nat
  key_count : Nat
  logical_date : Nat
deriving DecidableEq

/-- A row of the `notes` table; `timestamp` is the conflict target of the
upsert in `addNote`. -/
structure NoteRow where
  timestamp : Nat
  content : String
  logical_date : Nat
deriving DecidableEq

/-- A row of the `daily_blog` table; `logical_date` is the conflict target
of the upsert in `saveBlog`. -/
structure BlogRow where
  logical_date : Nat
  content : String
deriving DecidableEq

/-- The persisted DuckDB state the query layer reads and writes. -/
structure Store where
  window_events : List WRow
  key_events : List KRow
  notes : List NoteRow
  daily_blog : List BlogRow
deriving DecidableEq

/-- One element of `getAppUsageForDate`'s result
(`{app_name, duration_seconds, event_count}`). -/
structure AppUsage where
  app_name : String
  duration_seconds : Nat
  event_count : Nat
deriving DecidableEq

/-- One element of `getOverview`'s result
(`{logical_date, total_keys, unique_apps}`). -/
structure DailySummary where
  logical_date : Nat
  total_keys : Nat
  unique_apps : Nat
deriving DecidableEq

/-- The `WindowEvent` interface consumed by `CategoryStats.tsx`
(timestamp already parsed to an instant). -/
structure WindowEvent where
  timestamp : Nat
  app_name : String
deriving DecidableEq

/-- The `window_events` rows of one logical date, `ORDER BY timestamp`
(the `WHERE logical_date = ?` filter plus the window-function ordering of
`getAppUsageForDate`). -/
def dayWindowRows (s : Store) (d : Nat) : List WRow :=
  sortAscBy (fun w => w.timestamp) (s.window_events.filter (fun w => w.logical_date == d))

/-- The per-event durations of `getAppUsageForDate`: each event is paired
with `LEAD(timestamp) - timestamp` (no cap), and the last event — whose
`LEAD` is `NULL` — with `0`. -/
def leadDurations : List WRow → List (String × Nat)
  | [] => []
  | [e] => [(e.app_name, 0)]
  | e :: e' :: rest => (e.app_name, e'.timestamp - e.timestamp) :: leadDurations (e' :: rest)

/-- `GROUP BY app_name` accumulator: add one event's duration to its app's
bucket, creating the bucket on first sight and counting events. -/
def insertUsage : List AppUsage → String → Nat → List AppUsage
  | [], app, dur => [⟨app, dur, 1⟩]
  | u :: rest, app, dur =>
    if u.app_name = app then ⟨u.app_name, u.duration_seconds + dur, u.event_count + 1⟩ :: rest
    else u :: insertUsage rest app dur

/-- `SELECT app_name, SUM(...), COUNT(*) ... GROUP BY app_name` over the
per-event durations. -/
def groupUsage (l : List (String × Nat)) : List AppUsage :=
  l.foldl (fun acc p => insertUsage acc p.1 p.2) []

/-- The aggregation body of `getAppUsageForDate` on the day's ordered rows:
group the lead-durations by app and `ORDER BY duration_seconds DESC`. -/
def appUsageOfRows (rows : List WRow) : List AppUsage :=
  sortDescBy (fun u => u.duration_seconds) (groupUsage (leadDurations rows))

/-- `getAppUsageForDate` of `ulogme-db`: app usage breakdown for a date
with durations calculated by the `LEAD` window function. -/
def getAppUsageForDate (s : Store) (d : Nat) : List AppUsage :=
  appUsageOfRows (dayWindowRows s d)

/-- The per-event capped durations of the `CategoryStats.tsx` loop: event
`i` is paired with `min(events[i+1].timestamp - events[i].timestamp, 30 * 60)`
seconds, the last event with its own timestamp as successor (duration 0). -/
def cappedDurations : List WindowEvent → List (String × Nat)
  | [] => []
  | [e] => [(e.app_name, min (e.timestamp - e.timestamp) (30 * 60))]
  | e :: e' :: rest =>
    (e.app_name, min (e'.timestamp - e.timestamp) (30 * 60)) :: cappedDurations (e' :: rest)

/-- The `durations[app] = (durations[app] || 0) + cappedDuration` update of
`CategoryStats.tsx` on an association list in first-seen key order (the JS
object's string-key insertion order). -/
def bump : List (String × Nat) → String → Nat → List (String × Nat)
  | [], app, dur => [(app, dur)]
  | p :: rest, app, dur =>
    if p.1 = app then (p.1, p.2 + dur) :: rest
    else p :: bump rest app dur

/-- The per-app duration table computed by `CategoryStats.tsx` before
filtering and sorting. -/
def categoryDurations (events : List WindowEvent) : List (String × Nat) :=
  (cappedDurations events).foldl (fun acc p => bump acc p.1 p.2) []

/-- The chart entries of `CategoryStats.tsx`: drop the `__LOCKEDSCREEN`
sentinel, sort by duration descending, keep the top 8. -/
def categoryStatsData (events : List WindowEvent) : List (String × Nat) :=
  (sortDescBy (fun p => p.2)
    ((categoryDurations events).filter (fun p => !(p.1 == "__LOCKEDSCREEN")))).take 8

/-- Duration looked up in an association table, 0 when absent
(`durations[app] || 0`). -/
def lookup0 (m : List (String × Nat)) (a : String) : Nat :=
  match m.find? (fun p => p.1 == a) with
  | some p => p.2
  | none => 0

/-- The optional `WHERE w.logical_date >= ? / <= ?` range conditions of
`getOverview`; an absent bound imposes no condition. -/
def inRange (fromD toD : Option Nat) (d : Nat) : Bool :=
  (match fromD with
   | none => true
   | some f => f ≤ d) &&
  (match toD with
   | none => true
   | some t => d ≤ t)

/-- The distinct logical dates `getOverview` groups by, newest first:
dates of `window_events` rows passing the range filter, deduplicated by
`GROUP BY`, `ORDER BY logical_date DESC`. -/
def overviewDates (s : Store) (fromD toD : Option Nat) : List Nat :=
  sortDescBy (fun d => d)
    (((s.window_events.filter (fun w => inRange fromD toD w.logical_date)).map
      (fun w => w.logical_date)).dedup)

/-- The correlated subquery of `getOverview`:
`COALESCE((SELECT SUM(key_count) FROM key_events k WHERE k.logical_date = ...), 0)`. -/
def totalKeys (s : Store) (d : Nat) : Nat :=
  ((s.key_events.filter (fun k => k.logical_date == d)).map (fun k => k.key_count)).sum

/-- `COUNT(DISTINCT w.app_name)` over the day's `window_events` rows. -/
def uniqueApps (s : Store) (d : Nat) : Nat :=
  ((s.window_events.filter (fun w => w.logical_date == d)).map (fun w => w.app_name)).dedup.length

/-- `getOverview` of `ulogme-db`: per-day summaries for the requested
range, newest first, `LIMIT limit`. -/
def getOverview (s : Store) (fromD toD : Option Nat) (limit : Nat) : List DailySummary :=
  ((overviewDates s fromD toD).take limit).map (fun d => ⟨d, totalKeys s d, uniqueApps s d⟩)

/-- `addNote` of `ulogme-db`:
`INSERT INTO notes ... ON CONFLICT (timestamp) DO UPDATE SET content = excluded.content`
— on a timestamp conflict only `content` is replaced, `logical_date` keeps
its stored value; otherwise the new row is inserted. -/
def addNote (s : Store) (t : Nat) (c : String) (d : Nat) : Store :=
  if s.notes.any (fun n => n.timestamp == t) then
    { s with notes := s.notes.map (fun n => if n.timestamp = t then ⟨n.timestamp, c, n.logical_date⟩ else n) }
  else
    { s with notes := s.notes ++ [⟨t, c, d⟩] }

/-- `saveBlog` of `ulogme-db`:
`INSERT INTO daily_blog ... ON CONFLICT (logical_date) DO UPDATE SET content = excluded.content`. -/
def saveBlog (s : Store) (d : Nat) (c : String) : Store :=
  if s.daily_blog.any (fun b => b.logical_date == d) then
    { s with daily_blog := s.daily_blog.map (fun b => if b.logical_date = d then ⟨b.logical_date, c⟩ else b) }
  else
    { s with daily_blog := s.daily_blog ++ [⟨d, c⟩] }

/-- The stored daily-blog row for a date, as the table holds it
(`SELECT content FROM daily_blog WHERE logical_date = ?`). -/
def storedBlog (s : Store) (d : Nat) : Option String :=
  (s.daily_blog.find? (fun b => b.logical_date == d)).map (fun b => b.content)

/-- The notes of one logical date as `getDayData` returns them
(`WHERE logical_date = ? ORDER BY timestamp`). -/
def dayNotes (s : Store) (d : Nat) : List NoteRow :=
  sortAscBy (fun n => n.timestamp) (s.notes.filter (fun n => n.logical_date == d))

/-- The `blog` field of `getDayData`: the stored content if the row exists
and the content is truthy (`blogRows.length > 0 && blogRows[0][0] ? ... : null`,
so an empty stored string reads back as `null`). -/
def dayBlog (s : Store) (d : Nat) : Option String :=
  match storedBlog s d with
  | some c => if c = "" then none else some c
  | none => none

/-- The `DayData` result shape of `getDayData`
(`{logical_date, window_events, key_events, notes, blog}`). -/
structure DayData where
  logical_date : Nat
  window_events : List WRow
  key_events : List KRow
  notes : List NoteRow
  blog : Option String
deriving DecidableEq

/-- `getDayData` of `ulogme-db`: all data of one logical date, each table
filtered by the date and ordered by timestamp. -/
def getDayData (s : Store) (d : Nat) : DayData :=
  ⟨d,
   sortAscBy (fun w => w.timestamp) (s.window_events.filter (fun w => w.logical_date == d)),
   sortAscBy (fun k => k.timestamp) (s.key_events.filter (fun k => k.logical_date == d)),
   dayNotes s d,
   dayBlog s d⟩

/-- JS falsiness of an optional string request field: absent fields and the
empty string are falsy (`!content`). -/
def strFalsy : Option String → Bool
  | none => true
  | some s => s == ""

/-- The `POST /api/ulogme/note` handler of `server.ts`: reject with 400
when `timestamp`, `content` or `logical_date` is falsy (for the parsed
timestamp and date fields this models the absent case), otherwise run
`addNote` and answer 200. The returned pair is (resulting store, status). -/
def postNoteHandler (s : Store) (timestamp : Option Nat) (content : Option String)
    (logicalDate : Option Nat) : Store × Nat :=
  match timestamp, content, logicalDate with
  | some t, some c, some d => if c = "" then (s, 400) else (addNote s t c d, 200)
  | _, _, _ => (s, 400)

/-- The `PUT /api/ulogme/blog/:logicalDate` handler of `server.ts`: reject
with 400 only when `content` is absent (`content === undefined`); any
present string — the empty string included — is passed to `saveBlog`. -/
def putBlogHandler (s : Store) (logicalDate : Nat) (content : Option String) : Store × Nat :=
  match content with
  | none => (s, 400)
  | some c => (saveBlog s logicalDate c, 200)

/-- Modelled from the spec: the Category Classifier of spec §4.3 is not
present under `src/` — only the settings UI editing its rule list and the
rewrite plan describing it are — so the rule type follows the spec's data
model: `{pattern (regex string), category, priority (higher = evaluated
first; ties broken by declaration order)}`. -/
structure CategoryRule where
  pattern : String
  category : String
  priority : Int
deriving DecidableEq

/-- Modelled from the spec: rules in evaluation order — priority
descending, declaration order breaking ties (the sort is stable). -/
def sortRules (rules : List CategoryRule) : List CategoryRule :=
  sortDescBy (fun r => r.priority) rules

/-- Modelled from the spec: `classify(subject, rules)` returns the category
of the first rule, in priority order, whose pattern matches `subject`, and
the raw application name when no rule matches. The regex engine is the
external collaborator `rmatch : pattern → subject → Bool`. -/
def classify (rmatch : String → String → Bool) (subject appName : String)
    (rules : List CategoryRule) : String :=
  match (sortRules rules).find? (fun r => rmatch r.pattern subject) with
  | some r => r.category
  | none => appName

/-- The spec §8 example day: events (09:00, Chrome), (09:05, VSCode),
(09:40, Chrome) on logical date 1, timestamps in seconds since midnight. -/
def exStore1 : Store :=
  ⟨[⟨32400, "Chrome", none, none, 1⟩, ⟨32700, "VSCode", none, none, 1⟩,
    ⟨34800, "Chrome", none, none, 1⟩], [], [], []⟩

/-- The same example day as `CategoryStats.tsx` input events. -/
def exEvents : List WindowEvent :=
  [⟨32400, "Chrome"⟩, ⟨32700, "VSCode"⟩, ⟨34800, "Chrome"⟩]

/-- A store with window events on logical dates 1 and 3 only, plus a
keystroke sample on date 2 — date 2 lies inside the range [1, 3] but has no
window events. -/
def exStore2 : Store :=
  ⟨[⟨100, "AppA", none, none, 1⟩, ⟨200, "AppB", none, none, 3⟩],
   [⟨150, 42, 2⟩], [], []⟩

/-- A day whose first event is the `__LOCKEDSCREEN` sentinel followed ten
minutes later by a Chrome event, so the sentinel is attributed 600 seconds. -/
def exStore3 : Store :=
  ⟨[⟨0, "__LOCKEDSCREEN", none, none, 1⟩, ⟨600, "Chrome", none, none, 1⟩], [], [], []⟩

/-- The sentinel day of `exStore3` as `CategoryStats.tsx` input events. -/
def exEvents3 : List WindowEvent := [⟨0, "__LOCKEDSCREEN"⟩, ⟨600, "Chrome"⟩]

theorem lookup0_nil (a : String) : lookup0 [] a = 0 := rfl

theorem lookup0_cons (p : String × Nat) (rest : List (String × Nat)) (a : String) :
    lookup0 (p :: rest) a = if p.1 = a then p.2 else lookup0 rest a := by
  by_cases h : p.1 = a
  · simp [lookup0, List.find?_cons, h]
  · simp [lookup0, List.find?_cons, h]

theorem lookup0_bump_same (m : List (String × Nat)) (a : String) (dur : Nat) :
    lookup0 (bump m a dur) a = lookup0 m a + dur := by
  induction m with
  | nil =>
    rw [show bump [] a dur = [(a, dur)] from rfl, lookup0_cons, lookup0_nil]
    simp
  | cons p rest ih =>
    by_cases h : p.1 = a
    · rw [show bump (p :: rest) a dur = (p.1, p.2 + dur) :: rest from by
        simp [bump, if_pos h], lookup0_cons, lookup0_cons, if_pos h, if_pos h]
    · rw [show bump (p :: rest) a dur = p :: bump rest a dur from by
        simp [bump, if_neg h], lookup0_cons, lookup0_cons, if_neg h, if_neg h, ih]

theorem lookup0_bump_other (m : List (String × Nat)) (a b : String) (dur : Nat)
    (h : b ≠ a) : lookup0 (bump m a dur) b = lookup0 m b := by
  induction m with
  | nil =>
    rw [show bump [] a dur = [(a, dur)] from rfl, lookup0_cons, lookup0_nil,
      if_neg (Ne.symm h)]
  | cons p rest ih =>
    by_cases hp : p.1 = a
    · rw [show bump (p :: rest) a dur = (p.1, p.2 + dur) :: rest from by
        simp [bump, if_pos hp], lookup0_cons, lookup0_cons]
      have hpb : ¬ p.1 = b := by rw [hp]; exact Ne.symm h
      rw [if_neg hpb, if_neg hpb]
    · rw [show bump (p :: rest) a dur = p :: bump rest a dur from by
        simp [bump, if_neg hp], lookup0_cons, lookup0_cons, ih]

theorem lookup0_foldl_bump (l : List (String × Nat)) (m : List (String × Nat)) (a : String) :
    lookup0 (l.foldl (fun acc p => bump acc p.1 p.2) m) a
      = lookup0 m a + ((l.filter (fun p => p.1 == a)).map (fun p => p.2)).sum := by
  induction l generalizing m with
  | nil => simp
  | cons p l ih =>
    by_cases h : p.1 = a
    · rw [List.foldl_cons, ih, h, lookup0_bump_same]
      simp [List.filter_cons, h]
      omega
    · rw [List.foldl_cons, ih, lookup0_bump_other m p.1 a p.2 (Ne.symm h)]
      simp [List.filter_cons, h]

theorem cappedDurations_le (events : List WindowEvent) :
    ∀ p ∈ cappedDurations events, p.2 ≤ 30 * 60 := by
  induction events with
  | nil => simp [cappedDurations]
  | cons e rest ih =>
    cases rest with
    | nil =>
      intro p hp
      simp only [cappedDurations, List.mem_singleton] at hp
      subst hp
      exact min_le_right _ _
    | cons e2 rest2 =>
      intro p hp
      simp only [cappedDurations, List.mem_cons] at hp
      rcases hp with rfl | hp
      · exact min_le_right _ _
      · exact ih p hp

theorem leadDurations_cons_getLast (x : WRow) (l : List WRow) (h : l ≠ []) :
    (leadDurations (x :: l)).getLast? = (leadDurations l).getLast? := by
  cases l with
  | nil => exact absurd rfl h
  | cons y l2 =>
    cases l2 with
    | nil => rfl
    | cons z l3 => simp only [leadDurations, List.getLast?_cons_cons]

theorem leadDurations_last_zero (rows : List WRow) (e : WRow) :
    (leadDurations (rows ++ [e])).getLast? = some (e.app_name, 0) := by
  induction rows with
  | nil => rfl
  | cons r rows ih =>
    rw [List.cons_append, leadDurations_cons_getLast r (rows ++ [e]) (by simp), ih]

theorem cappedDurations_cons_getLast (x : WindowEvent) (l : List WindowEvent) (h : l ≠ []) :
    (cappedDurations (x :: l)).getLast? = (cappedDurations l).getLast? := by
  cases l with
  | nil => exact absurd rfl h
  | cons y l2 =>
    cases l2 with
    | nil => rfl
    | cons z l3 => simp only [cappedDurations, List.getLast?_cons_cons]

theorem cappedDurations_last_zero (events : List WindowEvent) (ev : WindowEvent) :
    (cappedDurations (events ++ [ev])).getLast? = some (ev.app_name, 0) := by
  induction events with
  | nil => simp [cappedDurations, Nat.sub_self]
  | cons e events ih =>
    rw [List.cons_append, cappedDurations_cons_getLast e (events ++ [ev]) (by simp), ih]

/-- C5: in both duration derivations the final event of the ordered
sequence — the one with no successor — is attributed exactly zero duration;
a single-event day yields an all-zero (single zero-duration entry) result
and an empty day yields an empty result, both derivations being total
functions. -/
theorem final_event_zero_duration (rows : List WRow) (e : WRow)
    (events : List WindowEvent) (ev : WindowEvent) :
    (leadDurations (rows ++ [e])).getLast? = some (e.app_name, 0)
    ∧ appUsageOfRows [e] = [⟨e.app_name, 0, 1⟩]
    ∧ appUsageOfRows ([] : List WRow) = []
    ∧ (cappedDurations (events ++ [ev])).getLast? = some (ev.app_name, 0)
    ∧ categoryDurations [ev] = [(ev.app_name, 0)]
    ∧ categoryDurations ([] : List WindowEvent) = [] := by
  refine ⟨leadDurations_last_zero rows e, rfl, rfl,
    cappedDurations_last_zero events ev, ?_, rfl⟩
  simp [categoryDurations, cappedDurations, Nat.sub_self, bump]

/-- C1 counterexample: on the spec §8 example day, `getAppUsageForDate`
attributes the full 2100-second (35-minute) inter-event gap to VSCode —
not `min(2100, 30 * 60) = 1800` as the claim states. -/
theorem appUsage_no_gap_cap_cex :
    ((getAppUsageForDate exStore1 1).find? (fun u => u.app_name == "VSCode")).map
      (fun u => u.duration_seconds) = some 2100
    ∧ min 2100 (30 * 60) = 1800
    ∧ (2100 : Nat) ≠ 1800 := by decide

/-- C1 amended: in the `CategoryStats.tsx` derivation each event's
contribution is capped at `30 * 60` seconds, the per-app total is the sum
of its events' capped contributions, and on the spec §8 example day the
35-minute gap contributes exactly 1800 seconds to VSCode (while
`getAppUsageForDate` applies no cap — see the counterexample). -/
theorem categoryStats_gap_cap (events : List WindowEvent) (app : String) :
    lookup0 (categoryDurations events) app
      = (((cappedDurations events).filter (fun p => p.1 == app)).map (fun p => p.2)).sum
    ∧ (∀ p ∈ cappedDurations events, p.2 ≤ 30 * 60)
    ∧ categoryDurations exEvents = [("Chrome", 300), ("VSCode", 1800)] := by
  refine ⟨?_, cappedDurations_le events, by decide⟩
  simpa [lookup0] using lookup0_foldl_bump (cappedDurations events) [] app

theorem categoryStats_gap_cap_witness :
    lookup0 (categoryDurations exEvents) "VSCode"
      = (((cappedDurations exEvents).filter (fun p => p.1 == "VSCode")).map (fun p => p.2)).sum
    ∧ ("VSCode", 1800) ∈ cappedDurations exEvents
    ∧ (1800 : Nat) ≤ 30 * 60 :=
  ⟨(categoryStats_gap_cap exEvents "VSCode").1, by decide,
   (categoryStats_gap_cap exEvents "VSCode").2.1 ("VSCode", 1800) (by decide)⟩

/-- C3 counterexample: `getAppUsageForDate` keeps the `__LOCKEDSCREEN`
sentinel in its per-app totals — on `exStore3` the sentinel appears with
600 attributed seconds. -/
theorem appUsage_sentinel_cex :
    ∃ u ∈ getAppUsageForDate exStore3 1,
      u.app_name = "__LOCKEDSCREEN" ∧ u.duration_seconds = 600 := by decide

/-- C3 amended: the `CategoryStats.tsx` chart data excludes the
`__LOCKEDSCREEN` sentinel from its per-app totals (and both derivations
are total functions, so sentinel input never raises an error), while
`getAppUsageForDate` keeps the sentinel — see the counterexample. -/
theorem categoryStats_sentinel_excluded (events : List WindowEvent) (p : String × Nat)
    (hp : p ∈ categoryStatsData events) : p.1 ≠ "__LOCKEDSCREEN" := by
  have h1 : p ∈ sortDescBy (fun q => q.2)
      ((categoryDurations events).filter (fun q => !(q.1 == "__LOCKEDSCREEN"))) :=
    List.take_subset _ _ hp
  have h2 := (mem_sortDescBy _ p _).mp h1
  have h3 := (List.mem_filter.mp h2).2
  simpa using h3

theorem categoryStats_sentinel_excluded_witness :
    ("Chrome", 0) ∈ categoryStatsData exEvents3
    ∧ ("Chrome", (0 : Nat)).1 ≠ "__LOCKEDSCREEN" :=
  ⟨by decide, categoryStats_sentinel_excluded exEvents3 ("Chrome", 0) (by decide)⟩

/-- C2 counterexample: logical date 2 lies inside the requested range
[1, 3] and has no window events in `exStore2`; `getOverview` omits it
instead of returning a zero-filled summary for it. -/
theorem overview_missing_day_cex :
    inRange (some 1) (some 3) 2 = true
    ∧ (getOverview exStore2 (some 1) (some 3) 30).map (fun e => e.logical_date) = [3, 1]
    ∧ (∀ e ∈ getOverview exStore2 (some 1) (some 3) 30, e.logical_date ≠ 2) := by decide

/-- C2 amended: only logical dates that have at least one `window_events`
row inside the range appear in `getOverview`'s output; a date in the range
with no window events (even one that has keystroke samples) is omitted
rather than zero-filled. -/
theorem overview_only_event_dates (s : Store) (fromD toD : Option Nat) (limit : Nat)
    (e : DailySummary) (he : e ∈ getOverview s fromD toD limit) :
    inRange fromD toD e.logical_date = true
    ∧ ∃ w ∈ s.window_events, w.logical_date = e.logical_date := by
  rcases List.mem_map.mp he with ⟨d, hd, rfl⟩
  have h1 : d ∈ overviewDates s fromD toD := List.take_subset _ _ hd
  have h2 := (mem_sortDescBy _ d _).mp h1
  have h3 := List.mem_dedup.mp h2
  rcases List.mem_map.mp h3 with ⟨w, hw, hwd⟩
  have h4 := List.mem_filter.mp hw
  refine ⟨?_, w, h4.1, ?_⟩
  · rw [show (⟨d, totalKeys s d, uniqueApps s d⟩ : DailySummary).logical_date = d from rfl,
      ← hwd]
    exact h4.2
  · exact hwd

theorem getOverview_map_dates (s : Store) (fromD toD : Option Nat) (n : Nat) :
    (getOverview s fromD toD n).map (fun e => e.logical_date)
      = (overviewDates s fromD toD).take n := by
  unfold getOverview
  rw [List.map_map]
  exact List.map_id' _

theorem mem_overviewDates (s : Store) (fromD toD : Option Nat) (d : Nat) :
    d ∈ overviewDates s fromD toD
      ↔ ∃ w ∈ s.window_events, w.logical_date = d ∧ inRange fromD toD d = true := by
  unfold overviewDates
  rw [mem_sortDescBy, List.mem_dedup, List.mem_map]
  constructor
  · rintro ⟨w, hw, rfl⟩
    have h := List.mem_filter.mp hw
    exact ⟨w, h.1, rfl, h.2⟩
  · rintro ⟨w, hw, rfl, hr⟩
    exact ⟨w, List.mem_filter.mpr ⟨hw, hr⟩, rfl⟩

theorem overviewDates_sorted (s : Store) (fromD toD : Option Nat) :
    (overviewDates s fromD toD).Pairwise (fun a b => b < a) := by
  have hpw := pairwise_sortDescBy (fun d : Nat => d)
    (((s.window_events.filter (fun w => inRange fromD toD w.logical_date)).map
      (fun w => w.logical_date)).dedup)
  have hnd : (overviewDates s fromD toD).Nodup :=
    (perm_sortDescBy (fun d : Nat => d) _).symm.nodup (List.nodup_dedup _)
  exact (List.Pairwise.and hpw hnd).imp (fun h => lt_of_le_of_ne h.1 (Ne.symm h.2))

/-- C4: `getOverview` returns at most `n` per-day summaries; their dates
are strictly newest-first, every entry carries the day's keystroke total
and distinct-app count, and any qualifying date (one with a window event
inside the range) that is missing from the output was cut off by the
limit: the output is then full and every returned date is more recent. -/
theorem getOverview_limit_spec (s : Store) (fromD toD : Option Nat) (n : Nat) :
    (getOverview s fromD toD n).length ≤ n
    ∧ ((getOverview s fromD toD n).map (fun e => e.logical_date)).Pairwise (fun a b => b < a)
    ∧ (∀ e ∈ getOverview s fromD toD n,
        e.total_keys = totalKeys s e.logical_date ∧ e.unique_apps = uniqueApps s e.logical_date)
    ∧ (∀ d : Nat, (∃ w ∈ s.window_events, w.logical_date = d ∧ inRange fromD toD d = true) →
        d ∉ (getOverview s fromD toD n).map (fun e => e.logical_date) →
        (getOverview s fromD toD n).length = n
        ∧ ∀ d' ∈ (getOverview s fromD toD n).map (fun e => e.logical_date), d < d') := by
  have hmap := getOverview_map_dates s fromD toD n
  have hlen : (getOverview s fromD toD n).length = ((overviewDates s fromD toD).take n).length := by
    rw [← hmap, List.length_map]
  refine ⟨?_, ?_, ?_, ?_⟩
  · rw [hlen, List.length_take]
    exact min_le_left _ _
  · rw [hmap]
    exact List.Pairwise.sublist (List.take_sublist n _) (overviewDates_sorted s fromD toD)
  · intro e he
    rcases List.mem_map.mp he with ⟨d, _, rfl⟩
    exact ⟨rfl, rfl⟩
  · intro d hq hnot
    rw [hmap] at hnot
    have hdL : d ∈ overviewDates s fromD toD := (mem_overviewDates s fromD toD d).mpr hq
    have hsplit := List.take_append_drop n (overviewDates s fromD toD)
    have hdrop : d ∈ (overviewDates s fromD toD).drop n := by
      rcases List.mem_append.mp (by rw [hsplit]; exact hdL) with h | h
      · exact absurd h hnot
      · exact h
    have hnle : n ≤ (overviewDates s fromD toD).length := by
      by_contra hc
      rw [List.drop_eq_nil_of_le (le_of_not_le hc)] at hdrop
      exact absurd hdrop (List.not_mem_nil d)
    constructor
    · rw [hlen, List.length_take]
      exact min_eq_left hnle
    · intro d' hd'
      rw [hmap] at hd'
      have hpw := overviewDates_sorted s fromD toD
      rw [← hsplit] at hpw
      exact (List.pairwise_append.mp hpw).2.2 d' hd' d hdrop

theorem getOverview_limit_spec_witness :
    (getOverview exStore2 none none 1).length ≤ 1
    ∧ (∃ w ∈ exStore2.window_events, w.logical_date = 1 ∧ inRange none none 1 = true)
    ∧ (1 : Nat) ∉ (getOverview exStore2 none none 1).map (fun e => e.logical_date)
    ∧ (getOverview exStore2 none none 1).length = 1
    ∧ ∀ d' ∈ (getOverview exStore2 none none 1).map (fun e => e.logical_date), 1 < d' := by
  have h := getOverview_limit_spec exStore2 none none 1
  have h4 := h.2.2.2 1 (by decide) (by decide)
  exact ⟨h.1, by decide, by decide, h4.1, h4.2⟩

theorem overview_only_event_dates_witness :
    inRange (some 1) (some 3) (3 : Nat) = true
    ∧ ∃ w ∈ exStore2.window_events, w.logical_date = 3 := by
  have h := overview_only_event_dates exStore2 (some 1) (some 3) 30
    ⟨3, 0, 1⟩ (by decide)
  exact h

/-- C7: adding a note at a fresh timestamp and then reading the day back
through `getDayData` returns the note. -/
theorem addNote_roundtrip (s : Store) (t : Nat) (c : String) (d : Nat)
    (_hc : c ≠ "") (hno : ∀ n ∈ s.notes, n.timestamp ≠ t) :
    ∃ n ∈ (getDayData (addNote s t c d) d).notes, n.timestamp = t ∧ n.content = c := by
  have hany : s.notes.any (fun n => n.timestamp == t) = false := by
    rw [List.any_eq_false]
    intro n hn
    simp [hno n hn]
  refine ⟨⟨t, c, d⟩, ?_, rfl, rfl⟩
  show (⟨t, c, d⟩ : NoteRow) ∈ dayNotes (addNote s t c d) d
  rw [dayNotes, addNote, if_neg (by rw [hany]; exact Bool.false_ne_true)]
  rw [mem_sortAscBy]
  refine List.mem_filter.mpr ⟨?_, by simp⟩
  exact List.mem_append.mpr (Or.inr (List.mem_singleton.mpr rfl))

theorem addNote_roundtrip_witness :
    ("lunch" : String) ≠ ""
    ∧ ∃ n ∈ (getDayData (addNote exStore1 5 "lunch" 7) 7).notes,
        n.timestamp = 5 ∧ n.content = "lunch" :=
  ⟨by decide, addNote_roundtrip exStore1 5 "lunch" 7 (by decide) (by decide)⟩

/-- C8: the note write boundary rejects a request whose timestamp, content
or logical date is missing with a 400 validation error and leaves the
store completely unchanged. -/
theorem postNote_validation (s : Store) (t : Option Nat) (c : Option String)
    (d : Option Nat) (h : t = none ∨ c = none ∨ d = none) :
    postNoteHandler s t c d = (s, 400) := by
  rcases h with h | h | h
  · subst h; cases c <;> cases d <;> rfl
  · subst h; cases t <;> cases d <;> rfl
  · subst h; cases t <;> cases c <;> rfl

theorem postNote_validation_witness :
    postNoteHandler exStore1 none (some "lunch") (some 1) = (exStore1, 400) :=
  postNote_validation exStore1 none (some "lunch") (some 1) (Or.inl rfl)

/-- C9: writing twice at one timestamp leaves exactly one note there whose
content is the second write's but whose logical date is the first write's —
the conflict branch updates only `content`. -/
theorem addNote_conflict_keeps_date (s : Store) (t : Nat) (c1 : String) (d1 : Nat)
    (c2 : String) (d2 : Nat) (hno : ∀ n ∈ s.notes, n.timestamp ≠ t) :
    (addNote (addNote s t c1 d1) t c2 d2).notes.filter (fun n => n.timestamp == t)
      = [⟨t, c2, d1⟩] := by
  have hany : s.notes.any (fun n => n.timestamp == t) = false := by
    rw [List.any_eq_false]
    intro n hn
    simp [hno n hn]
  have h1 : (addNote s t c1 d1).notes = s.notes ++ [⟨t, c1, d1⟩] := by
    rw [addNote, if_neg (by rw [hany]; exact Bool.false_ne_true)]
  have hany2 : (addNote s t c1 d1).notes.any (fun n => n.timestamp == t) = true := by
    rw [h1, List.any_append]
    simp
  rw [addNote, if_pos hany2]
  show ((addNote s t c1 d1).notes.map _).filter _ = _
  rw [h1, List.map_append, List.filter_append]
  have hleft : ((s.notes.map
      (fun n => if n.timestamp = t then (⟨n.timestamp, c2, n.logical_date⟩ : NoteRow) else n)).filter
        (fun n => n.timestamp == t)) = [] := by
    rw [List.filter_eq_nil_iff]
    intro n hn
    rcases List.mem_map.mp hn with ⟨m, hm, rfl⟩
    rw [if_neg (hno m hm)]
    simp [hno m hm]
  rw [hleft, List.nil_append]
  simp

theorem addNote_conflict_keeps_date_witness :
    (addNote (addNote exStore1 5 "a" 1) 5 "b" 2).notes.filter (fun n => n.timestamp == 5)
      = [⟨5, "b", 1⟩] :=
  addNote_conflict_keeps_date exStore1 5 "a" 1 "b" 2 (by decide)

theorem find?_update_blog (l : List BlogRow) (d : Nat) (c : String)
    (h : l.any (fun b => b.logical_date == d) = true) :
    (l.map (fun b => if b.logical_date = d then (⟨b.logical_date, c⟩ : BlogRow) else b)).find?
      (fun b => b.logical_date == d) = some ⟨d, c⟩ := by
  induction l with
  | nil => simp at h
  | cons b l ih =>
    by_cases hb : b.logical_date = d
    · rw [List.map_cons, if_pos hb, hb]
      simp [List.find?_cons]
    · rw [List.map_cons, if_neg hb, List.find?_cons_of_neg _ (by simp [hb])]
      rw [List.any_cons] at h
      simp only [show (b.logical_date == d) = false by simp [hb], Bool.false_or] at h
      exact ih h

theorem find?_append_blog (l : List BlogRow) (d : Nat) (c : String)
    (h : l.any (fun b => b.logical_date == d) = false) :
    (l ++ [(⟨d, c⟩ : BlogRow)]).find? (fun b => b.logical_date == d) = some ⟨d, c⟩ := by
  induction l with
  | nil => simp [List.find?_cons]
  | cons b l ih =>
    rw [List.any_cons, Bool.or_eq_false_iff] at h
    rw [List.cons_append, List.find?_cons_of_neg _ (by simp [h.1])]
    exact ih h.2

theorem storedBlog_saveBlog (s : Store) (d : Nat) (c : String) :
    storedBlog (saveBlog s d c) d = some c := by
  rw [saveBlog]
  by_cases h : s.daily_blog.any (fun b => b.logical_date == d) = true
  · rw [if_pos h]
    show ((s.daily_blog.map _).find? _).map _ = _
    rw [find?_update_blog s.daily_blog d c h]
    rfl
  · rw [if_neg h]
    show ((s.daily_blog ++ [(⟨d, c⟩ : BlogRow)]).find? _).map _ = _
    rw [find?_append_blog s.daily_blog d c (Bool.eq_false_iff.mpr h)]
    rfl

theorem filter_key_insertDescBy {α β : Type} [LinearOrder β] (key : α → β) (a : α)
    (l : List α) (k : β) (h : key a = k) :
    (insertDescBy key a l).filter (fun x => decide (key x = k))
      = a :: l.filter (fun x => decide (key x = k)) := by
  induction l with
  | nil => simp [insertDescBy, h]
  | cons b l ih =>
    by_cases hba : key b ≤ key a
    · rw [insertDescBy, if_pos hba]
      simp [List.filter_cons, h]
    · have hbk : ¬ key b = k := by
        rw [← h]
        exact ne_of_gt (lt_of_not_le hba)
      rw [insertDescBy, if_neg hba, List.filter_cons, List.filter_cons]
      simp only [hbk, decide_False, Bool.false_eq_true, if_false]
      exact ih

theorem filter_key_insertDescBy_ne {α β : Type} [LinearOrder β] (key : α → β) (a : α)
    (l : List α) (k : β) (h : ¬ key a = k) :
    (insertDescBy key a l).filter (fun x => decide (key x = k))
      = l.filter (fun x => decide (key x = k)) := by
  induction l with
  | nil => simp [insertDescBy, h]
  | cons b l ih =>
    by_cases hba : key b ≤ key a
    · rw [insertDescBy, if_pos hba]
      simp [List.filter_cons, h]
    · rw [insertDescBy, if_neg hba, List.filter_cons, List.filter_cons]
      rw [ih]

theorem filter_key_sortDescBy {α β : Type} [LinearOrder β] (key : α → β)
    (l : List α) (k : β) :
    (sortDescBy key l).filter (fun x => decide (key x = k))
      = l.filter (fun x => decide (key x = k)) := by
  induction l with
  | nil => rfl
  | cons a l ih =>
    by_cases h : key a = k
    · rw [sortDescBy, filter_key_insertDescBy key a _ k h, ih, List.filter_cons]
      simp [h]
    · rw [sortDescBy, filter_key_insertDescBy_ne key a _ k h, ih, List.filter_cons]
      simp [h]

/-- The spec §8 classifier rule list:
`[{Chrome, Browser, priority 1}, {VSCode, Coding, priority 2}]`. -/
def exRules : List CategoryRule := [⟨"Chrome", "Browser", 1⟩, ⟨"VSCode", "Coding", 2⟩]

/-- A concrete match predicate for the spec §8 classifier example: the
pattern `VSCode` matches the subject `VSCode - main.py`. -/
def rmatchEx : String → String → Bool :=
  fun pat subj => pat == "VSCode" && subj == "VSCode - main.py"

/-- C6: the classifier returns the raw application name when no rule's
pattern matches the subject (no activity is dropped); and whenever some
rule matches, the returned category is that of a matching rule that is
priority-maximal among all matching rules and, among the matching rules of
that priority, the first in declaration order. -/
theorem classify_spec (rmatch : String → String → Bool) (subject appName : String)
    (rules : List CategoryRule) :
    ((∀ r ∈ rules, rmatch r.pattern subject = false) →
      classify rmatch subject appName rules = appName)
    ∧ (∀ r0 ∈ rules, rmatch r0.pattern subject = true →
        ∃ r ∈ rules, rmatch r.pattern subject = true
          ∧ classify rmatch subject appName rules = r.category
          ∧ (∀ r2 ∈ rules, rmatch r2.pattern subject = true → r2.priority ≤ r.priority)
          ∧ (rules.filter
              (fun r2 => rmatch r2.pattern subject && decide (r2.priority = r.priority))).head?
            = some r) := by
  constructor
  · intro h
    have hnone : (sortRules rules).find? (fun r => rmatch r.pattern subject) = none := by
      rw [List.find?_eq_none]
      intro r hr
      simp [h r ((mem_sortDescBy _ r rules).mp hr)]
    rw [classify, hnone]
  · intro r0 hr0 hm
    cases hfind : (sortRules rules).find? (fun r => rmatch r.pattern subject) with
    | none =>
      have := List.find?_eq_none.mp hfind r0 ((mem_sortDescBy _ r0 rules).mpr hr0)
      simp [hm] at this
    | some r =>
      rcases List.find?_eq_some.mp hfind with ⟨hpr, l1, l2, hsplit, hpre⟩
      have hrmem : r ∈ rules :=
        (mem_sortDescBy _ r rules).mp (List.mem_of_find?_eq_some hfind)
      have hpre' : ∀ x ∈ l1, rmatch x.pattern subject = false := by
        intro x hx
        have := hpre x hx
        simpa using this
      refine ⟨r, hrmem, hpr, by rw [classify, hfind], ?_, ?_⟩
      · intro r2 hr2 hm2
        have hr2s : r2 ∈ sortRules rules := (mem_sortDescBy _ r2 rules).mpr hr2
        rw [hsplit] at hr2s
        rcases List.mem_append.mp hr2s with h | h
        · rw [hpre' r2 h] at hm2
          exact absurd hm2 (by simp)
        · rcases List.mem_cons.mp h with rfl | h
          · exact le_refl _
          · have hpw := pairwise_sortDescBy (fun q : CategoryRule => q.priority) rules
            rw [show sortDescBy (fun q : CategoryRule => q.priority) rules
                = sortRules rules from rfl, hsplit] at hpw
            exact (List.pairwise_cons.mp (List.pairwise_append.mp hpw).2.1).1 r2 h
      · have hq : ∀ x : CategoryRule,
            (rmatch x.pattern subject && decide (x.priority = r.priority))
              = ((fun y : CategoryRule => rmatch y.pattern subject) x
                  && (fun y : CategoryRule => decide (y.priority = r.priority)) x) := by
          intro x
          rfl
        have hstab := filter_key_sortDescBy (fun q : CategoryRule => q.priority) rules r.priority
        calc (rules.filter
              (fun r2 => rmatch r2.pattern subject && decide (r2.priority = r.priority))).head?
            = ((rules.filter
                (fun r2 => decide (r2.priority = r.priority))).filter
                  (fun r2 => rmatch r2.pattern subject)).head? := by
              rw [List.filter_filter]
          _ = (((sortRules rules).filter
                (fun r2 => decide (r2.priority = r.priority))).filter
                  (fun r2 => rmatch r2.pattern subject)).head? := by
              rw [show (sortRules rules).filter (fun r2 => decide (r2.priority = r.priority))
                  = rules.filter (fun r2 => decide (r2.priority = r.priority)) from hstab]
          _ = ((sortRules rules).filter
                (fun r2 => rmatch r2.pattern subject && decide (r2.priority = r.priority))).head?
              := by rw [List.filter_filter]
          _ = some r := by
              rw [hsplit, List.filter_append]
              have hl1 : l1.filter
                  (fun r2 => rmatch r2.pattern subject && decide (r2.priority = r.priority))
                    = [] := by
                rw [List.filter_eq_nil_iff]
                intro x hx
                simp [hpre' x hx]
              rw [hl1, List.nil_append, List.filter_cons]
              simp [hpr]

theorem classify_spec_witness :
    ∃ r ∈ exRules, rmatchEx r.pattern "VSCode - main.py" = true
      ∧ classify rmatchEx "VSCode - main.py" "VSCode" exRules = r.category
      ∧ (∀ r2 ∈ exRules, rmatchEx r2.pattern "VSCode - main.py" = true → r2.priority ≤ r.priority)
      ∧ (exRules.filter
          (fun r2 => rmatchEx r2.pattern "VSCode - main.py" && decide (r2.priority = r.priority))).head?
        = some r :=
  (classify_spec rmatchEx "VSCode - main.py" "VSCode" exRules).2
    ⟨"VSCode", "Coding", 2⟩ (by decide) (by decide)

/-- C10: the daily-log write accepts the empty string — only an absent
content field is rejected — and upserts it, overwriting the stored log for
that date with `""`, while the note write rejects empty-string content as
missing: `save_daily_log(d, "")` succeeds and `add_note(t, "", d)` fails
with a validation error. -/
theorem blog_empty_content_contrast (s : Store) (d : Nat) (t : Nat) :
    putBlogHandler s d none = (s, 400)
    ∧ putBlogHandler s d (some "") = (saveBlog s d "", 200)
    ∧ storedBlog (saveBlog s d "") d = some ""
    ∧ postNoteHandler s (some t) (some "") (some d) = (s, 400) :=
  ⟨rfl, rfl, storedBlog_saveBlog s d "", rfl⟩

end Newlogme
